import Mathlib

/-!
Verification of the selection/lookup state machine of the ITOM interactive
mind-map widget (`src/App.tsx`).  The source file contains two near-identical
variants of the application; both are embedded here.  JavaScript strings are
modelled as lists of characters, so that `String.prototype.split(',')`, the
default lexicographic `Array.prototype.sort()` and string equality can be
reasoned about directly.

The pairing table (`summaries`, imported from `./summaries` which is not part
of the repository snapshot) is modelled from the spec as an association list
from canonical keys to summary texts; see `WellFormed` below.
-/

namespace Itom

/-- A JavaScript string, modelled as its list of characters. -/
abbrev Str := List Char

/-- Embed a Lean string literal into the model. -/
def str (s : String) : Str := s.data

/-- Modelled from the spec: the `summaries` object imported from
`./summaries` (absent from the repository snapshot) is "a mapping from an
unordered pair of leaf item names to a summary string", represented as an
association list in insertion order, mirroring a JS object with its
`Object.keys` order. -/
abbrev Table := List (Str × Str)

/-- JS `s.split(',')`. -/
def splitComma : Str → List Str
  | [] => [[]]
  | c :: rest =>
    if c = ',' then [] :: splitComma rest
    else
      match splitComma rest with
      | [] => [[c]]
      | w :: ws => (c :: w) :: ws

/-- JS `<` on strings: lexicographic comparison by character code. -/
def strLt : Str → Str → Bool
  | _, [] => false
  | [], _ :: _ => true
  | a :: as, b :: bs => if a < b then true else if b < a then false else strLt as bs

/-- JS `[a, b].sort().join(',')`: the canonical pairing-table key. -/
def sortKey (a b : Str) : Str :=
  if strLt b a then b ++ ',' :: a else a ++ ',' :: b

/-- JS property read `summaries[key]` (a JS object has unique keys; on the
association list this is the first, hence only, binding). -/
def lookupTable (t : Table) (k : Str) : Option Str :=
  (t.find? (fun p => p.1 == k)).map Prod.snd

/-- The Selection Controller state: `selectedItems` and `summary`
(`useState` in `ITOMInteractiveMindMap`). -/
structure AppState where
  selectedItems : List Str
  summary : Str
deriving DecidableEq

/-- `useState([])`, `useState('')`: the initial state. -/
def initialState : AppState := ⟨[], []⟩

/-- JS `Object.keys(summaries).find(k => k.split(',').includes(a) &&
k.split(',').includes(item))` from the first variant of `handleNodeSelect`. -/
def findPairKey (t : Table) (a item : Str) : Option Str :=
  (t.map Prod.fst).find?
    (fun k => (splitComma k).contains a && (splitComma k).contains item)

/-- Branch structure shared by both `handleNodeSelect` variants: the new
selection, paired with the summary value as set inside the branches
(`setSummary(summaries[key])` in the found case, otherwise untouched). -/
def selStep1 (t : Table) (item : Str) (s : AppState) : List Str × Str :=
  if s.selectedItems.contains item then
    (s.selectedItems.filter (fun i => i != item), s.summary)
  else if s.selectedItems.length == 0 then
    ([item], s.summary)
  else if s.selectedItems.length == 1 then
    match findPairKey t (s.selectedItems.headD []) item with
    | some key => ([s.selectedItems.headD [], item], (lookupTable t key).getD [])
    | none => (s.selectedItems, s.summary)
  else
    ([item], s.summary)

/-- Same branch structure, second variant: `const key = [prev[0],
item].sort().join(','); if (summaries[key]) ...` — note the JS truthiness
test, under which an absent key and an empty-string summary both reject. -/
def selStep2 (t : Table) (item : Str) (s : AppState) : List Str × Str :=
  if s.selectedItems.contains item then
    (s.selectedItems.filter (fun i => i != item), s.summary)
  else if s.selectedItems.length == 0 then
    ([item], s.summary)
  else if s.selectedItems.length == 1 then
    if (lookupTable t (sortKey (s.selectedItems.headD []) item)).getD [] != ([] : Str) then
      ([s.selectedItems.headD [], item],
        (lookupTable t (sortKey (s.selectedItems.headD []) item)).getD [])
    else (s.selectedItems, s.summary)
  else
    ([item], s.summary)

/-- The trailing `if (newSelection.length !== 2) setSummary('')` of both
variants. -/
def clampSummary (pair : List Str × Str) : AppState :=
  ⟨pair.1, if pair.1.length == 2 then pair.2 else []⟩

/-- `handleNodeSelect` of the first variant (App.tsx lines 223-250). -/
def handleNodeSelect1 (t : Table) (item : Str) (s : AppState) : AppState :=
  clampSummary (selStep1 t item s)

/-- `handleNodeSelect` of the second variant (App.tsx lines 509-534). -/
def handleNodeSelect2 (t : Table) (item : Str) (s : AppState) : AppState :=
  clampSummary (selStep2 t item s)

/-- `handleReset`: clears selection and summary unconditionally. -/
def handleReset (_ : AppState) : AppState := ⟨[], []⟩

/-- Run a sequence of clicks through the first variant. -/
def runSeq1 (t : Table) (items : List Str) (s : AppState) : AppState :=
  items.foldl (fun acc i => handleNodeSelect1 t i acc) s

/-- Run a sequence of clicks through the second variant. -/
def runSeq2 (t : Table) (items : List Str) (s : AppState) : AppState :=
  items.foldl (fun acc i => handleNodeSelect2 t i acc) s

/-- A category of the static taxonomy: a name plus its leaf item names. -/
structure MindMapNode where
  name : Str
  children : List Str
deriving DecidableEq

/-- The static taxonomy root. -/
structure MindMapData where
  name : Str
  children : List MindMapNode
deriving DecidableEq

/-- The `mindmapData` literal of App.tsx (identical in both variants). -/
def mindmapData : MindMapData :=
  ⟨str "ITOM Market",
   [⟨str "Technologies",
     [str "Cloud Management", str "AIOps", str "Automation",
      str "Network Monitoring", str "APM", str "ITSM",
      str "Infrastructure Monitoring", str "Log Analytics"]⟩,
    ⟨str "Market Trends",
     [str "Digital Transformation", str "Multi-Cloud Adoption",
      str "Edge Computing", str "DevOps Integration", str "Containerization",
      str "Cybersecurity"]⟩,
    ⟨str "Key Players",
     [str "ServiceNow", str "BMC", str "IBM", str "Splunk", str "Datadog",
      str "Dynatrace", str "New Relic", str "Microsoft"]⟩,
    ⟨str "Challenges",
     [str "Skill Gap", str "Integration Complexity", str "Data Privacy",
      str "Legacy Systems"]⟩,
    ⟨str "Benefits",
     [str "Efficiency", str "Cost Reduction", str "User Experience",
      str "Fast Resolution", str "Proactive Prevention"]⟩,
    ⟨str "Industry Verticals",
     [str "Finance", str "Healthcare", str "Retail", str "Manufacturing",
      str "Telecom", str "Government"]⟩,
    ⟨str "Future Outlook",
     [str "Predictive Analytics", str "Autonomous Ops"]⟩]⟩

/-- The `availableItems` local of `availableTabs` (variant 1, lines 211-214):
all split parts, other than the selected item itself, of every pairing-table
key mentioning the selected item. -/
def partnerItems (t : Table) (a : Str) : List Str :=
  (((t.map Prod.fst).filter (fun k => (splitComma k).contains a)).flatMap
    splitComma).filter (fun item => item != a)

/-- `availableTabs` (variant 1, lines 207-221): the derived view
`eligibleCategories()` of the spec. -/
def availableTabs (t : Table) (selectedItems : List Str) : List MindMapNode :=
  if selectedItems.length == 0 then
    mindmapData.children
  else if selectedItems.length == 1 then
    let availableItems := partnerItems t (selectedItems.headD [])
    mindmapData.children.filter
      (fun category => category.children.any (fun item => availableItems.contains item))
  else []

/-- The category list rendered by the second variant's tab switcher
(App.tsx lines 547-580): its JSX maps over `mindmapData.children` directly
(`{mindmapData.children.map((category) => ...)}` for both the tab list and
the panels), so the rendered tab list does not depend on the selection. -/
def renderedTabs2 (_selectedItems : List Str) : List MindMapNode :=
  mindmapData.children

/-- `availableNodes` of `ForceGraph` (lines 72-82 and 401-411; the two
variants' membership tests `key.split(',').some(item => item === x)` and
`key.split(',').includes(x)` are the same predicate): the derived view
`eligibleItems(category)` of the spec. -/
def availableNodes (t : Table) (data : MindMapNode) (selectedItems : List Str) : List Str :=
  if selectedItems.length == 0 then
    data.children
  else if selectedItems.length == 1 then
    (((t.map Prod.fst).filter
        (fun k => (splitComma k).contains (selectedItems.headD []))).flatMap
      splitComma).filter
      (fun item => item != selectedItems.headD [] && data.children.contains item)
  else []

/-- Spec-side notion: `x` is a valid pairing-table partner of `a` iff the
canonical key for the unordered pair has an entry. -/
def validPartner (t : Table) (a x : Str) : Bool :=
  (lookupTable t (sortKey a x)).isSome

/-- A well-formed pairing-table key: it splits into exactly two parts in
strictly increasing lexicographic order (hence two distinct names). -/
def entryWF (k : Str) : Bool :=
  match splitComma k with
  | [x, y] => strLt x y
  | _ => false

/-- Modelled from the spec: the Pairing Table invariant — "every key
decomposes into exactly two distinct leaf-item names; lookups must
canonicalize order before querying" — plus uniqueness of keys (a JS object
cannot hold duplicate keys). -/
def WellFormed (t : Table) : Prop :=
  (∀ p ∈ t, entryWF p.1 = true) ∧ (t.map Prod.fst).Nodup

/-- All summary texts of the table are non-empty strings. -/
def NonEmptySummaries (t : Table) : Prop := ∀ p ∈ t, p.2 ≠ []

/-- A node as handed to the d3 simulation: the hub carries its `children`
array, leaves do not (`{name: child}`). -/
structure D3Node where
  name : Str
  children : Option (List Str)
deriving DecidableEq

/-- The node set built by `ForceGraph`: `[data, ...availableNodes.map(child
=> ({name: child}))]` (lines 106-109 and 425-428). -/
def graphNodes (t : Table) (data : MindMapNode) (selectedItems : List Str) : List D3Node :=
  ⟨data.name, some data.children⟩ ::
    (availableNodes t data selectedItems).map (fun child => ⟨child, none⟩)

/-- The click handler attached to every rendered circle (line 141): `.on(
"click", (event, d) => onNodeSelect(d.name))`, with `onNodeSelect` bound to
`handleNodeSelect` of variant 1. -/
def circleClick1 (t : Table) (n : D3Node) (s : AppState) : AppState :=
  handleNodeSelect1 t n.name s

/-- The click handler attached to every rendered circle (line 462), variant 2. -/
def circleClick2 (t : Table) (n : D3Node) (s : AppState) : AppState :=
  handleNodeSelect2 t n.name s

/-- States reachable from the initial state by `selectItem` (either variant)
and `reset` calls. -/
inductive Reachable (t : Table) : AppState → Prop where
  | init : Reachable t initialState
  | select1 : ∀ s i, Reachable t s → Reachable t (handleNodeSelect1 t i s)
  | select2 : ∀ s i, Reachable t s → Reachable t (handleNodeSelect2 t i s)
  | reset : ∀ s, Reachable t s → Reachable t (handleReset s)

/-- A string with no comma in it (a single leaf-item name). -/
def NoComma (s : Str) : Prop := ',' ∉ s

/-- The first category of the taxonomy (hub of the first tab panel). -/
def technologies : MindMapNode := mindmapData.children.headD ⟨[], []⟩

/-- The third category of the taxonomy. -/
def keyPlayers : MindMapNode := mindmapData.children.getD 2 ⟨[], []⟩

/-- The reachable-state invariant: at most two selected items, and a
non-empty summary determines a two-item selection whose canonical key the
summary is bound to in the table. -/
def Inv (t : Table) (s : AppState) : Prop :=
  s.selectedItems.length ≤ 2 ∧
    (s.summary ≠ [] → s.selectedItems.length = 2 ∧
      ∃ a b, s.selectedItems = [a, b] ∧ lookupTable t (sortKey a b) = some s.summary)

/-- A one-entry pairing table matching the worked example of the spec:
`"AIOps,ServiceNow" → "text"`. -/
def T01 : Table := [(str "AIOps,ServiceNow", str "text")]

/-- A pairing table whose single entry carries an empty summary text; its key
is comma-joined, lexically sorted and has two distinct parts. -/
def Tbad : Table := [(str "AIOps,ServiceNow", [])]

theorem splitComma_ne_nil (s : Str) : splitComma s ≠ [] := by
  cases s with
  | nil => simp [splitComma]
  | cons c rest =>
    simp only [splitComma]
    split
    · simp
    · cases h : splitComma rest <;> simp

theorem splitComma_eq_single {s x : Str} (h : splitComma s = [x]) :
    NoComma x ∧ s = x := by
  induction s generalizing x with
  | nil =>
    simp only [splitComma, List.cons.injEq, and_true] at h
    subst h
    exact ⟨by simp [NoComma], rfl⟩
  | cons c rest ih =>
    by_cases hc : c = ','
    · subst hc
      simp only [splitComma, if_pos rfl] at h
      injection h with h1 h2
      exact absurd h2 (splitComma_ne_nil rest)
    · simp only [splitComma, if_neg hc] at h
      split at h
      · next heq => exact absurd heq (splitComma_ne_nil rest)
      · next w ws heq =>
        injection h with h1 h2
        subst h2
        obtain ⟨hnw, hrw⟩ := ih heq
        subst h1
        constructor
        · intro hmem
          rcases List.mem_cons.mp hmem with h | h
          · exact hc h.symm
          · exact hnw h
        · rw [hrw]

theorem splitComma_eq_pair {s x y : Str} (h : splitComma s = [x, y]) :
    NoComma x ∧ NoComma y ∧ s = x ++ ',' :: y := by
  induction s generalizing x with
  | nil => simp [splitComma] at h
  | cons c rest ih =>
    by_cases hc : c = ','
    · subst hc
      simp only [splitComma, if_pos rfl] at h
      injection h with h1 h2
      obtain ⟨hny, hry⟩ := splitComma_eq_single h2
      subst h1
      exact ⟨by simp [NoComma], hny, by rw [hry]; rfl⟩
    · simp only [splitComma, if_neg hc] at h
      split at h
      · next heq => exact absurd heq (splitComma_ne_nil rest)
      · next w ws heq =>
        injection h with h1 h2
        subst h1
        rw [h2] at heq
        obtain ⟨hnw, hny, hrw⟩ := ih heq
        refine ⟨?_, hny, ?_⟩
        · intro hmem
          rcases List.mem_cons.mp hmem with h | h
          · exact hc h.symm
          · exact hnw h
        · rw [hrw]; rfl

theorem comma_inj {a b x y : Str} (hx : NoComma x) (hy : NoComma y)
    (h : a ++ ',' :: b = x ++ ',' :: y) : a = x ∧ b = y := by
  induction x generalizing a with
  | nil =>
    cases a with
    | nil =>
      simp only [List.nil_append, List.cons.injEq, true_and] at h
      exact ⟨rfl, h⟩
    | cons d a' =>
      simp only [List.nil_append, List.cons_append, List.cons.injEq] at h
      exact absurd (h.2 ▸ (by simp : ',' ∈ a' ++ ',' :: b)) hy
  | cons c x' ih =>
    cases a with
    | nil =>
      simp only [List.nil_append, List.cons_append, List.cons.injEq] at h
      exact absurd (List.mem_cons.mpr (Or.inl h.1)) hx
    | cons d a' =>
      simp only [List.cons_append, List.cons.injEq] at h
      have hx' : NoComma x' := fun hm => hx (List.mem_cons_of_mem _ hm)
      obtain ⟨ha, hb⟩ := ih hx' h.2
      exact ⟨by rw [h.1, ha], hb⟩

theorem strLt_irrefl (s : Str) : strLt s s = false := by
  induction s with
  | nil => rfl
  | cons c rest ih => simp [strLt, ih]

theorem strLt_ne {a b : Str} (h : strLt a b = true) : a ≠ b := by
  intro heq
  subst heq
  rw [strLt_irrefl] at h
  exact absurd h (by simp)

theorem strLt_asymm {a b : Str} (h : strLt a b = true) : strLt b a = false := by
  induction a generalizing b with
  | nil =>
    cases b with
    | nil => simp [strLt] at h
    | cons d bs => rfl
  | cons c as ih =>
    cases b with
    | nil => simp [strLt] at h
    | cons d bs =>
      simp only [strLt] at h ⊢
      by_cases h1 : c < d
      · rw [if_neg (lt_asymm h1), if_pos h1]
      · by_cases h2 : d < c
        · rw [if_neg h1, if_pos h2] at h
          exact absurd h (by simp)
        · rw [if_neg h1, if_neg h2] at h
          rw [if_neg h2, if_neg h1, ih h]

theorem strLt_eq_of_not {a b : Str} (h1 : strLt a b = false) (h2 : strLt b a = false) :
    a = b := by
  induction a generalizing b with
  | nil =>
    cases b with
    | nil => rfl
    | cons d bs => simp [strLt] at h1
  | cons c as ih =>
    cases b with
    | nil => simp [strLt] at h2
    | cons d bs =>
      simp only [strLt] at h1 h2
      rcases lt_trichotomy c d with hcd | hcd | hcd
      · rw [if_pos hcd] at h1
        exact absurd h1 (by simp)
      · subst hcd
        simp only [lt_irrefl, if_false, if_neg (lt_irrefl c)] at h1 h2
        rw [ih h1 h2]
      · rw [if_pos hcd] at h2
        exact absurd h2 (by simp)

theorem sortKey_comm (a b : Str) : sortKey a b = sortKey b a := by
  unfold sortKey
  by_cases h1 : strLt b a = true
  · rw [if_pos h1, if_neg (by simp [strLt_asymm h1])]
  · by_cases h2 : strLt a b = true
    · rw [if_neg h1, if_pos h2]
    · have : a = b := strLt_eq_of_not (by simpa using h2) (by simpa using h1)
      subst this
      rfl

theorem entryWF_elim {k : Str} (h : entryWF k = true) :
    ∃ x y, splitComma k = [x, y] ∧ strLt x y = true := by
  unfold entryWF at h
  split at h
  · next x y heq => exact ⟨x, y, heq, h⟩
  · exact absurd h (by simp)

theorem entry_eq_sortKey {k a b : Str} (hk : entryWF k = true)
    (ha : (splitComma k).contains a = true) (hb : (splitComma k).contains b = true)
    (hab : a ≠ b) : k = sortKey a b := by
  obtain ⟨x, y, hsplit, hxy⟩ := entryWF_elim hk
  obtain ⟨hnx, hny, hk'⟩ := splitComma_eq_pair hsplit
  rw [hsplit] at ha hb
  have ha' : a = x ∨ a = y := by simpa using ha
  have hb' : b = x ∨ b = y := by simpa using hb
  rcases ha' with rfl | rfl <;> rcases hb' with rfl | rfl
  · exact absurd rfl hab
  · rw [hk']
    unfold sortKey
    rw [if_neg (by simp [strLt_asymm hxy])]
  · rw [hk']
    unfold sortKey
    rw [if_pos hxy]
  · exact absurd rfl hab

theorem sortKey_entryWF_elim {a b : Str} (h : entryWF (sortKey a b) = true) :
    a ≠ b ∧ (splitComma (sortKey a b)).contains a = true ∧
      (splitComma (sortKey a b)).contains b = true := by
  obtain ⟨x, y, hsplit, hxy⟩ := entryWF_elim h
  obtain ⟨hnx, hny, hk⟩ := splitComma_eq_pair hsplit
  unfold sortKey at hk
  split at hk
  · obtain ⟨hbx, hay⟩ := comma_inj hnx hny hk
    subst hbx
    subst hay
    exact ⟨fun heq => strLt_ne hxy (heq ▸ rfl), by rw [hsplit]; simp, by rw [hsplit]; simp⟩
  · obtain ⟨hax, hby⟩ := comma_inj hnx hny hk
    subst hax
    subst hby
    exact ⟨strLt_ne hxy, by rw [hsplit]; simp, by rw [hsplit]; simp⟩

theorem lookup_isSome_iff {t : Table} {k : Str} :
    (lookupTable t k).isSome = true ↔ k ∈ t.map Prod.fst := by
  simp [lookupTable, List.find?_isSome, List.mem_map]

theorem lookup_eq_some_elim {t : Table} {k v : Str} (h : lookupTable t k = some v) :
    ∃ p ∈ t, p.1 = k ∧ p.2 = v := by
  unfold lookupTable at h
  cases hf : t.find? (fun p => p.1 == k) with
  | none => rw [hf] at h; simp at h
  | some p =>
    rw [hf] at h
    simp only [Option.map_some', Option.some.injEq] at h
    exact ⟨p, List.mem_of_find?_eq_some hf, by simpa using List.find?_some hf, h⟩

theorem entryWF_of_mem {t : Table} (hwf : ∀ p ∈ t, entryWF p.1 = true) {k : Str}
    (hk : k ∈ t.map Prod.fst) : entryWF k = true := by
  obtain ⟨p, hp, rfl⟩ := List.mem_map.mp hk
  exact hwf p hp

theorem ne_of_sortKey_mem {t : Table} {a b : Str} (hwf : ∀ p ∈ t, entryWF p.1 = true)
    (h : sortKey a b ∈ t.map Prod.fst) : a ≠ b :=
  (sortKey_entryWF_elim (entryWF_of_mem hwf h)).1

theorem find?_eq_some_unique {α : Type} {l : List α} {p : α → Bool} {x : α}
    (hx : x ∈ l) (hpx : p x = true) (huniq : ∀ y ∈ l, p y = true → y = x) :
    l.find? p = some x := by
  induction l with
  | nil => exact absurd hx (by simp)
  | cons a as ih =>
    by_cases hpa : p a = true
    · rw [List.find?_cons_of_pos _ hpa]
      rw [huniq a (by simp) hpa]
    · rw [List.find?_cons_of_neg _ (by simpa using hpa)]
      rcases List.mem_cons.mp hx with rfl | hx'
      · exact absurd hpx hpa
      · exact ih hx' (fun y hy hpy => huniq y (List.mem_cons_of_mem _ hy) hpy)

theorem findPairKey_eq {t : Table} {a b : Str} (hwf : ∀ p ∈ t, entryWF p.1 = true)
    (hab : a ≠ b) :
    findPairKey t a b =
      if (lookupTable t (sortKey a b)).isSome = true then some (sortKey a b) else none := by
  by_cases hs : (lookupTable t (sortKey a b)).isSome = true
  · rw [if_pos hs]
    have hmem : sortKey a b ∈ t.map Prod.fst := lookup_isSome_iff.mp hs
    obtain ⟨hne, hca, hcb⟩ := sortKey_entryWF_elim (entryWF_of_mem hwf hmem)
    refine find?_eq_some_unique hmem ?_ ?_
    · show ((splitComma (sortKey a b)).contains a &&
        (splitComma (sortKey a b)).contains b) = true
      rw [hca, hcb]
      rfl
    · intro y hy hpy
      rw [Bool.and_eq_true] at hpy
      exact entry_eq_sortKey (entryWF_of_mem hwf hy) hpy.1 hpy.2 hab
  · rw [if_neg hs]
    unfold findPairKey
    rw [List.find?_eq_none]
    intro k hk hpk
    rw [Bool.and_eq_true] at hpk
    have : k = sortKey a b := entry_eq_sortKey (entryWF_of_mem hwf hk) hpk.1 hpk.2 hab
    subst this
    exact hs (lookup_isSome_iff.mpr hk)

theorem length_one_eq {l : List Str} (h : l.length = 1) : l = [l.headD []] := by
  match l, h with
  | [x], _ => rfl

theorem head_ne_of_not_contains {l : List Str} {i : Str} (h1 : l.length = 1)
    (hc : l.contains i = false) : l.headD [] ≠ i := by
  rw [length_one_eq h1] at hc
  intro heq
  rw [heq] at hc
  simp at hc

theorem length_filter_ne_lt {l : List Str} {a : Str} (h : a ∈ l) :
    (l.filter (fun i => i != a)).length < l.length := by
  induction l with
  | nil => simp at h
  | cons b bs ih =>
    by_cases hb : b = a
    · subst hb
      simp only [List.filter_cons, bne_self_eq_false, List.length_cons]
      exact Nat.lt_succ_of_le (List.length_filter_le _ _)
    · have hbn : (b != a) = true := by simpa using hb
      simp only [List.filter_cons, hbn, if_pos, List.length_cons]
      have ha' : a ∈ bs := by
        rcases List.mem_cons.mp h with rfl | h'
        · exact absurd rfl hb
        · exact h'
      exact Nat.succ_lt_succ (ih ha')

theorem selStep1_contains {t : Table} {i : Str} {s : AppState}
    (h : s.selectedItems.contains i = true) :
    selStep1 t i s = (s.selectedItems.filter (fun x => x != i), s.summary) := by
  unfold selStep1
  rw [if_pos h]

theorem selStep1_len0 {t : Table} {i : Str} {s : AppState}
    (hc : s.selectedItems.contains i = false) (h0 : s.selectedItems.length = 0) :
    selStep1 t i s = ([i], s.summary) := by
  unfold selStep1
  rw [if_neg (by simpa using hc), if_pos (by simp [h0])]

theorem selStep1_len1 {t : Table} {i : Str} {s : AppState}
    (hc : s.selectedItems.contains i = false) (h1 : s.selectedItems.length = 1) :
    selStep1 t i s =
      (match findPairKey t (s.selectedItems.headD []) i with
       | some key => ([s.selectedItems.headD [], i], (lookupTable t key).getD [])
       | none => (s.selectedItems, s.summary)) := by
  unfold selStep1
  rw [if_neg (by simpa using hc), if_neg (by simp [h1]), if_pos (by simp [h1])]

theorem selStep1_long {t : Table} {i : Str} {s : AppState}
    (hc : s.selectedItems.contains i = false) (h0 : s.selectedItems.length ≠ 0)
    (h1 : s.selectedItems.length ≠ 1) :
    selStep1 t i s = ([i], s.summary) := by
  unfold selStep1
  rw [if_neg (by simpa using hc), if_neg (by simp [h0]), if_neg (by simp [h1])]

theorem selStep2_contains {t : Table} {i : Str} {s : AppState}
    (h : s.selectedItems.contains i = true) :
    selStep2 t i s = (s.selectedItems.filter (fun x => x != i), s.summary) := by
  unfold selStep2
  rw [if_pos h]

theorem selStep2_len0 {t : Table} {i : Str} {s : AppState}
    (hc : s.selectedItems.contains i = false) (h0 : s.selectedItems.length = 0) :
    selStep2 t i s = ([i], s.summary) := by
  unfold selStep2
  rw [if_neg (by simpa using hc), if_pos (by simp [h0])]

theorem selStep2_len1_acc {t : Table} {i : Str} {s : AppState}
    (hc : s.selectedItems.contains i = false) (h1 : s.selectedItems.length = 1)
    (hv : (lookupTable t (sortKey (s.selectedItems.headD []) i)).getD [] ≠ []) :
    selStep2 t i s = ([s.selectedItems.headD [], i],
      (lookupTable t (sortKey (s.selectedItems.headD []) i)).getD []) := by
  unfold selStep2
  rw [if_neg (by simpa using hc), if_neg (by simp [h1]), if_pos (by simp [h1]),
    if_pos (by simpa using hv)]

theorem selStep2_len1_rej {t : Table} {i : Str} {s : AppState}
    (hc : s.selectedItems.contains i = false) (h1 : s.selectedItems.length = 1)
    (hv : (lookupTable t (sortKey (s.selectedItems.headD []) i)).getD [] = []) :
    selStep2 t i s = (s.selectedItems, s.summary) := by
  unfold selStep2
  rw [if_neg (by simpa using hc), if_neg (by simp [h1]), if_pos (by simp [h1]),
    if_neg (by simpa using hv)]

theorem selStep2_long {t : Table} {i : Str} {s : AppState}
    (hc : s.selectedItems.contains i = false) (h0 : s.selectedItems.length ≠ 0)
    (h1 : s.selectedItems.length ≠ 1) :
    selStep2 t i s = ([i], s.summary) := by
  unfold selStep2
  rw [if_neg (by simpa using hc), if_neg (by simp [h0]), if_neg (by simp [h1])]

theorem clampSummary_selectedItems (pair : List Str × Str) :
    (clampSummary pair).selectedItems = pair.1 := rfl

theorem clamp_summary_ne {pair : List Str × Str}
    (h : (clampSummary pair).summary ≠ []) :
    pair.1.length = 2 ∧ (clampSummary pair).summary = pair.2 := by
  unfold clampSummary at h ⊢
  by_cases h2 : pair.1.length = 2
  · exact ⟨h2, by rw [if_pos (by simp [h2])]⟩
  · rw [if_neg (by simp [h2])] at h
    exact absurd rfl h

theorem selStep1_length {t : Table} {i : Str} {s : AppState}
    (h : s.selectedItems.length ≤ 2) : (selStep1 t i s).1.length ≤ 2 := by
  unfold selStep1
  split
  · exact le_trans (List.length_filter_le _ _) h
  · split
    · simp
    · split
      · split
        · simp
        · exact h
      · simp

theorem selStep2_length {t : Table} {i : Str} {s : AppState}
    (h : s.selectedItems.length ≤ 2) : (selStep2 t i s).1.length ≤ 2 := by
  unfold selStep2
  split
  · exact le_trans (List.length_filter_le _ _) h
  · split
    · simp
    · split
      · split
        · simp
        · exact h
      · simp

theorem hns1_length {t : Table} {i : Str} {s : AppState}
    (h : s.selectedItems.length ≤ 2) :
    (handleNodeSelect1 t i s).selectedItems.length ≤ 2 := selStep1_length h

theorem hns2_length {t : Table} {i : Str} {s : AppState}
    (h : s.selectedItems.length ≤ 2) :
    (handleNodeSelect2 t i s).selectedItems.length ≤ 2 := selStep2_length h

theorem runSeq1_cons (t : Table) (i : Str) (items : List Str) (s : AppState) :
    runSeq1 t (i :: items) s = runSeq1 t items (handleNodeSelect1 t i s) := rfl

theorem runSeq2_cons (t : Table) (i : Str) (items : List Str) (s : AppState) :
    runSeq2 t (i :: items) s = runSeq2 t items (handleNodeSelect2 t i s) := rfl

theorem runSeq1_length {t : Table} {s : AppState} (h : s.selectedItems.length ≤ 2)
    (items : List Str) : (runSeq1 t items s).selectedItems.length ≤ 2 := by
  induction items generalizing s with
  | nil => exact h
  | cons i rest ih => exact ih (hns1_length h)

theorem runSeq2_length {t : Table} {s : AppState} (h : s.selectedItems.length ≤ 2)
    (items : List Str) : (runSeq2 t items s).selectedItems.length ≤ 2 := by
  induction items generalizing s with
  | nil => exact h
  | cons i rest ih => exact ih (hns2_length h)

theorem inv_step1 {t : Table} (hwf : ∀ p ∈ t, entryWF p.1 = true) {s : AppState}
    (hinv : Inv t s) (i : Str) : Inv t (handleNodeSelect1 t i s) := by
  obtain ⟨hlen, _⟩ := hinv
  refine ⟨hns1_length hlen, ?_⟩
  intro hsm
  obtain ⟨h2, hval⟩ := clamp_summary_ne hsm
  refine ⟨h2, ?_⟩
  rw [show (handleNodeSelect1 t i s).summary = (selStep1 t i s).2 from hval]
  show ∃ a b, (selStep1 t i s).1 = [a, b] ∧
    lookupTable t (sortKey a b) = some (selStep1 t i s).2
  by_cases hc : s.selectedItems.contains i = true
  · exfalso
    rw [selStep1_contains hc] at h2
    dsimp only at h2
    have := length_filter_ne_lt (a := i) (l := s.selectedItems) (by simpa using hc)
    omega
  · have hcf : s.selectedItems.contains i = false := by simpa using hc
    by_cases h0 : s.selectedItems.length = 0
    · rw [selStep1_len0 hcf h0] at h2 ⊢
      simp at h2
    · by_cases h1 : s.selectedItems.length = 1
      · cases hk : findPairKey t (s.selectedItems.headD []) i with
        | none =>
          rw [selStep1_len1 hcf h1, hk] at h2
          dsimp only at h2
          omega
        | some k =>
          rw [selStep1_len1 hcf h1, hk] at h2 ⊢
          dsimp only at h2 ⊢
          have hkmem : k ∈ t.map Prod.fst := List.mem_of_find?_eq_some hk
          have hpk := List.find?_some hk
          rw [Bool.and_eq_true] at hpk
          have hai : s.selectedItems.headD [] ≠ i := head_ne_of_not_contains h1 hcf
          have hksort : k = sortKey (s.selectedItems.headD []) i :=
            entry_eq_sortKey (entryWF_of_mem hwf hkmem) hpk.1 hpk.2 hai
          obtain ⟨v, hv⟩ := Option.isSome_iff_exists.mp (lookup_isSome_iff.mpr hkmem)
          refine ⟨s.selectedItems.headD [], i, rfl, ?_⟩
          rw [← hksort, hv]
          simp [hv]
      · rw [selStep1_long hcf h0 h1] at h2
        simp at h2

theorem inv_step2 {t : Table} {s : AppState}
    (hinv : Inv t s) (i : Str) : Inv t (handleNodeSelect2 t i s) := by
  obtain ⟨hlen, _⟩ := hinv
  refine ⟨hns2_length hlen, ?_⟩
  intro hsm
  obtain ⟨h2, hval⟩ := clamp_summary_ne hsm
  refine ⟨h2, ?_⟩
  rw [show (handleNodeSelect2 t i s).summary = (selStep2 t i s).2 from hval]
  show ∃ a b, (selStep2 t i s).1 = [a, b] ∧
    lookupTable t (sortKey a b) = some (selStep2 t i s).2
  by_cases hc : s.selectedItems.contains i = true
  · exfalso
    rw [selStep2_contains hc] at h2
    dsimp only at h2
    have := length_filter_ne_lt (a := i) (l := s.selectedItems) (by simpa using hc)
    omega
  · have hcf : s.selectedItems.contains i = false := by simpa using hc
    by_cases h0 : s.selectedItems.length = 0
    · rw [selStep2_len0 hcf h0] at h2 ⊢
      simp at h2
    · by_cases h1 : s.selectedItems.length = 1
      · by_cases hv : (lookupTable t (sortKey (s.selectedItems.headD []) i)).getD [] = []
        · rw [selStep2_len1_rej hcf h1 hv] at h2
          dsimp only at h2
          omega
        · rw [selStep2_len1_acc hcf h1 hv] at h2 ⊢
          dsimp only at h2 ⊢
          refine ⟨s.selectedItems.headD [], i, rfl, ?_⟩
          cases hl : lookupTable t (sortKey (s.selectedItems.headD []) i) with
          | none => rw [hl] at hv; simp at hv
          | some w => simp
      · rw [selStep2_long hcf h0 h1] at h2
        simp at h2

theorem inv_reachable {t : Table} (hwf : ∀ p ∈ t, entryWF p.1 = true) {s : AppState}
    (h : Reachable t s) : Inv t s := by
  induction h with
  | init => exact ⟨by simp [initialState], fun h => absurd rfl h⟩
  | select1 s i _ ih => exact inv_step1 hwf ih i
  | select2 s i _ ih => exact inv_step2 ih i
  | reset s _ _ => exact ⟨by simp [handleReset], fun h => absurd rfl h⟩

theorem hns1_empty (t : Table) (i m : Str) :
    handleNodeSelect1 t i ⟨[], m⟩ = ⟨[i], []⟩ := by
  unfold handleNodeSelect1
  rw [selStep1_len0 (s := ⟨[], m⟩) rfl rfl]
  rfl

theorem hns2_empty (t : Table) (i m : Str) :
    handleNodeSelect2 t i ⟨[], m⟩ = ⟨[i], []⟩ := by
  unfold handleNodeSelect2
  rw [selStep2_len0 (s := ⟨[], m⟩) rfl rfl]
  rfl

theorem hns1_deselect_single (t : Table) (a m : Str) :
    handleNodeSelect1 t a ⟨[a], m⟩ = ⟨[], []⟩ := by
  unfold handleNodeSelect1
  rw [selStep1_contains (by simp)]
  simp [clampSummary]

theorem hns2_deselect_single (t : Table) (a m : Str) :
    handleNodeSelect2 t a ⟨[a], m⟩ = ⟨[], []⟩ := by
  unfold handleNodeSelect2
  rw [selStep2_contains (by simp)]
  simp [clampSummary]

theorem hns1_accept {t : Table} {a b v : Str} (m : Str)
    (hwf : ∀ p ∈ t, entryWF p.1 = true)
    (hl : lookupTable t (sortKey a b) = some v) (hab : a ≠ b) :
    handleNodeSelect1 t b ⟨[a], m⟩ = ⟨[a, b], v⟩ := by
  unfold handleNodeSelect1
  have hc : (AppState.mk [a] m).selectedItems.contains b = false := by
    simp [Ne.symm hab]
  rw [selStep1_len1 hc rfl]
  have hk : findPairKey t ((AppState.mk [a] m).selectedItems.headD []) b
      = some (sortKey a b) := by
    show findPairKey t a b = some (sortKey a b)
    rw [findPairKey_eq hwf hab, if_pos (by simp [hl])]
  rw [hk]
  simp [clampSummary, hl]

theorem hns1_reject {t : Table} {a b : Str} (m : Str)
    (hwf : ∀ p ∈ t, entryWF p.1 = true)
    (hl : lookupTable t (sortKey a b) = none) (hab : a ≠ b) :
    handleNodeSelect1 t b ⟨[a], m⟩ = ⟨[a], []⟩ := by
  unfold handleNodeSelect1
  have hc : (AppState.mk [a] m).selectedItems.contains b = false := by
    simp [Ne.symm hab]
  rw [selStep1_len1 hc rfl]
  have hk : findPairKey t ((AppState.mk [a] m).selectedItems.headD []) b = none := by
    show findPairKey t a b = none
    rw [findPairKey_eq hwf hab, if_neg (by simp [hl])]
  rw [hk]
  simp [clampSummary]

theorem hns2_accept {t : Table} {a b v : Str} (m : Str)
    (hl : lookupTable t (sortKey a b) = some v) (hv : v ≠ []) (hab : a ≠ b) :
    handleNodeSelect2 t b ⟨[a], m⟩ = ⟨[a, b], v⟩ := by
  unfold handleNodeSelect2
  have hc : (AppState.mk [a] m).selectedItems.contains b = false := by
    simp [Ne.symm hab]
  rw [selStep2_len1_acc hc rfl
    (by show (lookupTable t (sortKey a b)).getD [] ≠ []; simp [hl, hv])]
  simp [clampSummary, hl]

theorem hns2_reject {t : Table} {a b : Str} (m : Str)
    (hl : (lookupTable t (sortKey a b)).getD [] = []) (hab : a ≠ b) :
    handleNodeSelect2 t b ⟨[a], m⟩ = ⟨[a], []⟩ := by
  unfold handleNodeSelect2
  have hc : (AppState.mk [a] m).selectedItems.contains b = false := by
    simp [Ne.symm hab]
  rw [selStep2_len1_rej hc rfl
    (by show (lookupTable t (sortKey a b)).getD [] = []; exact hl)]
  simp [clampSummary]

theorem mem_partnerItems_iff {t : Table} (hwf : ∀ p ∈ t, entryWF p.1 = true)
    {a x : Str} : x ∈ partnerItems t a ↔ validPartner t a x = true := by
  unfold partnerItems validPartner
  rw [List.mem_filter, lookup_isSome_iff]
  constructor
  · rintro ⟨hx, hxa⟩
    obtain ⟨k, hk, hxk⟩ := List.mem_flatMap.mp hx
    obtain ⟨hkmem, hka⟩ := List.mem_filter.mp hk
    have hax : a ≠ x := by
      intro h
      subst h
      simp at hxa
    have hks := entry_eq_sortKey (entryWF_of_mem hwf hkmem) hka (by simpa using hxk) hax
    rw [← hks]
    exact hkmem
  · intro hmem
    obtain ⟨hne, hca, hcx⟩ := sortKey_entryWF_elim (entryWF_of_mem hwf hmem)
    exact ⟨List.mem_flatMap.mpr ⟨sortKey a x, List.mem_filter.mpr ⟨hmem, hca⟩,
      by simpa using hcx⟩, by simpa using Ne.symm hne⟩

theorem availableNodes_one (t : Table) (cat : MindMapNode) (a : Str) :
    availableNodes t cat [a] =
      (((t.map Prod.fst).filter (fun k => (splitComma k).contains a)).flatMap
        splitComma).filter (fun item => item != a && cat.children.contains item) := rfl

theorem availableNodes_mem {t : Table} (hwf : ∀ p ∈ t, entryWF p.1 = true)
    {cat : MindMapNode} {a x : Str} (h : x ∈ availableNodes t cat [a]) :
    validPartner t a x = true ∧ x ≠ a ∧ x ∈ cat.children := by
  rw [availableNodes_one] at h
  obtain ⟨hx, hcond⟩ := List.mem_filter.mp h
  rw [Bool.and_eq_true] at hcond
  obtain ⟨k, hk, hxk⟩ := List.mem_flatMap.mp hx
  obtain ⟨hkmem, hka⟩ := List.mem_filter.mp hk
  have hxa : x ≠ a := by simpa using hcond.1
  have hks := entry_eq_sortKey (entryWF_of_mem hwf hkmem) hka (by simpa using hxk)
    (Ne.symm hxa)
  refine ⟨?_, hxa, by simpa using hcond.2⟩
  unfold validPartner
  rw [lookup_isSome_iff, ← hks]
  exact hkmem

theorem availableTabs_nil (t : Table) : availableTabs t [] = mindmapData.children := rfl

theorem availableTabs_one {t : Table} (hwf : ∀ p ∈ t, entryWF p.1 = true) (a : Str) :
    availableTabs t [a] = mindmapData.children.filter
      (fun c => c.children.any (fun x => validPartner t a x)) := by
  have hstep : availableTabs t [a] = mindmapData.children.filter
      (fun category => category.children.any
        (fun item => (partnerItems t a).contains item)) := rfl
  rw [hstep]
  have hp : ∀ x, (partnerItems t a).contains x = validPartner t a x := by
    intro x
    by_cases hx : validPartner t a x = true
    · rw [hx]
      simpa using (mem_partnerItems_iff hwf).mpr hx
    · rw [show validPartner t a x = false by simpa using hx]
      by_cases hc : (partnerItems t a).contains x = true
      · exact absurd ((mem_partnerItems_iff hwf).mp (by simpa using hc)) hx
      · simpa using hc
  rw [funext hp]

theorem availableTabs_two (t : Table) (sel : List Str) (h : sel.length = 2) :
    availableTabs t sel = [] := by
  match sel, h with
  | [x, y], _ => rfl

theorem hns_agree {t : Table} (hwf : ∀ p ∈ t, entryWF p.1 = true)
    (hne : ∀ p ∈ t, p.2 ≠ []) (i : Str) (s : AppState) :
    handleNodeSelect1 t i s = handleNodeSelect2 t i s := by
  unfold handleNodeSelect1 handleNodeSelect2
  congr 1
  by_cases hc : s.selectedItems.contains i = true
  · rw [selStep1_contains hc, selStep2_contains hc]
  · have hcf : s.selectedItems.contains i = false := by simpa using hc
    by_cases h0 : s.selectedItems.length = 0
    · rw [selStep1_len0 hcf h0, selStep2_len0 hcf h0]
    · by_cases h1 : s.selectedItems.length = 1
      · have hai : s.selectedItems.headD [] ≠ i := head_ne_of_not_contains h1 hcf
        rw [selStep1_len1 hcf h1]
        cases hl : lookupTable t (sortKey (s.selectedItems.headD []) i) with
        | some v =>
          have hvne : v ≠ [] := by
            obtain ⟨p, hp, hpk, hpv⟩ := lookup_eq_some_elim hl
            rw [← hpv]
            exact hne p hp
          rw [selStep2_len1_acc hcf h1 (by rw [hl]; simpa using hvne)]
          have hk : findPairKey t (s.selectedItems.headD []) i
              = some (sortKey (s.selectedItems.headD []) i) := by
            rw [findPairKey_eq hwf hai, if_pos (by rw [hl]; rfl)]
          rw [hk]
        | none =>
          rw [selStep2_len1_rej hcf h1 (by rw [hl]; rfl)]
          have hk : findPairKey t (s.selectedItems.headD []) i = none := by
            rw [findPairKey_eq hwf hai, if_neg (by rw [hl]; simp)]
          rw [hk]
      · rw [selStep1_long hcf h0 h1, selStep2_long hcf h0 h1]

theorem runSeq_agree {t : Table} (hwf : ∀ p ∈ t, entryWF p.1 = true)
    (hne : ∀ p ∈ t, p.2 ≠ []) (items : List Str) (s : AppState) :
    runSeq1 t items s = runSeq2 t items s := by
  induction items generalizing s with
  | nil => rfl
  | cons i rest ih =>
    rw [runSeq1_cons, runSeq2_cons, hns_agree hwf hne i s, ih]

/-- C1 counterexample: with the pairing table containing the key
`AIOps,ServiceNow`, the sequence `selectItem("AIOps")`,
`selectItem("ServiceNow")`, `selectItem("AIOps")` does not end with
`selection = ["AIOps"]` in either variant: the third click hits the deselect
branch (`prev.includes(item)`) and removes `"AIOps"`, leaving
`["ServiceNow"]`. -/
theorem spec_c1_counterexample :
    (runSeq1 T01 [str "AIOps", str "ServiceNow", str "AIOps"]
        initialState).selectedItems ≠ [str "AIOps"] ∧
    (runSeq2 T01 [str "AIOps", str "ServiceNow", str "AIOps"]
        initialState).selectedItems ≠ [str "AIOps"] := by
  constructor <;> decide

/-- C1 amended: with the pairing table containing `"AIOps,ServiceNow" →
"text"`, the call sequence selectItem("AIOps"), selectItem("ServiceNow"),
selectItem("AIOps") ends with selection = ["ServiceNow"] and summary = ""
(the third click on an already-selected item deselects just that item; the
reset-and-reselect branch applies only to items not currently selected). -/
theorem spec_c1_amended :
    runSeq1 T01 [str "AIOps", str "ServiceNow", str "AIOps"] initialState
      = ⟨[str "ServiceNow"], []⟩ ∧
    runSeq2 T01 [str "AIOps", str "ServiceNow", str "AIOps"] initialState
      = ⟨[str "ServiceNow"], []⟩ := by
  constructor <;> decide

/-- C2 counterexample: the two click orders do not yield the same selection
sequence — `[AIOps, ServiceNow]` versus `[ServiceNow, AIOps]` — and with an
empty-string summary text the second variant does not even yield the same
set of selected items across the two orders. -/
theorem spec_c2_counterexample :
    runSeq1 T01 [str "AIOps", str "ServiceNow"] initialState
      ≠ runSeq1 T01 [str "ServiceNow", str "AIOps"] initialState ∧
    (runSeq2 Tbad [str "AIOps", str "ServiceNow"] initialState).selectedItems
      = [str "AIOps"] ∧
    (runSeq2 Tbad [str "ServiceNow", str "AIOps"] initialState).selectedItems
      = [str "ServiceNow"] := by
  refine ⟨?_, ?_, ?_⟩ <;> decide

/-- C2 amended: for every pair (a, b) whose pairing-table entry carries a
non-empty summary text, starting empty, the two click orders yield the same
set of selected items (the lists are permutations: `[a, b]` versus `[b, a]`)
and the same summary, in both variants. -/
theorem spec_c2_amended {t : Table} {a b v : Str} (hwf : WellFormed t)
    (hl : lookupTable t (sortKey a b) = some v) (hv : v ≠ []) :
    ((runSeq1 t [a, b] initialState).selectedItems.Perm
        (runSeq1 t [b, a] initialState).selectedItems ∧
      (runSeq1 t [a, b] initialState).summary
        = (runSeq1 t [b, a] initialState).summary) ∧
    ((runSeq2 t [a, b] initialState).selectedItems.Perm
        (runSeq2 t [b, a] initialState).selectedItems ∧
      (runSeq2 t [a, b] initialState).summary
        = (runSeq2 t [b, a] initialState).summary) := by
  have hab : a ≠ b :=
    ne_of_sortKey_mem hwf.1 (lookup_isSome_iff.mp (by rw [hl]; rfl))
  have hl' : lookupTable t (sortKey b a) = some v := by
    rw [sortKey_comm b a]
    exact hl
  have r1 : runSeq1 t [a, b] initialState = ⟨[a, b], v⟩ := by
    rw [show (initialState : AppState) = ⟨[], []⟩ from rfl, runSeq1_cons, hns1_empty,
      runSeq1_cons, hns1_accept [] hwf.1 hl hab]
    rfl
  have r1' : runSeq1 t [b, a] initialState = ⟨[b, a], v⟩ := by
    rw [show (initialState : AppState) = ⟨[], []⟩ from rfl, runSeq1_cons, hns1_empty,
      runSeq1_cons, hns1_accept [] hwf.1 hl' (Ne.symm hab)]
    rfl
  have r2 : runSeq2 t [a, b] initialState = ⟨[a, b], v⟩ := by
    rw [show (initialState : AppState) = ⟨[], []⟩ from rfl, runSeq2_cons, hns2_empty,
      runSeq2_cons, hns2_accept [] hl hv hab]
    rfl
  have r2' : runSeq2 t [b, a] initialState = ⟨[b, a], v⟩ := by
    rw [show (initialState : AppState) = ⟨[], []⟩ from rfl, runSeq2_cons, hns2_empty,
      runSeq2_cons, hns2_accept [] hl' hv (Ne.symm hab)]
    rfl
  rw [r1, r1', r2, r2']
  exact ⟨⟨List.Perm.swap b a [], rfl⟩, ⟨List.Perm.swap b a [], rfl⟩⟩

theorem spec_c2_witness :
    WellFormed T01 ∧
    lookupTable T01 (sortKey (str "AIOps") (str "ServiceNow")) = some (str "text") ∧
    str "text" ≠ [] ∧
    (((runSeq1 T01 [str "AIOps", str "ServiceNow"] initialState).selectedItems.Perm
        (runSeq1 T01 [str "ServiceNow", str "AIOps"] initialState).selectedItems ∧
      (runSeq1 T01 [str "AIOps", str "ServiceNow"] initialState).summary
        = (runSeq1 T01 [str "ServiceNow", str "AIOps"] initialState).summary) ∧
    ((runSeq2 T01 [str "AIOps", str "ServiceNow"] initialState).selectedItems.Perm
        (runSeq2 T01 [str "ServiceNow", str "AIOps"] initialState).selectedItems ∧
      (runSeq2 T01 [str "AIOps", str "ServiceNow"] initialState).summary
        = (runSeq2 T01 [str "ServiceNow", str "AIOps"] initialState).summary)) :=
  ⟨⟨by decide, by decide⟩, by decide, by decide,
    spec_c2_amended ⟨by decide, by decide⟩
      (show lookupTable T01 (sortKey (str "AIOps") (str "ServiceNow"))
          = some (str "text") by decide)
      (show str "text" ≠ [] by decide)⟩

/-- C3 counterexample: from a starting state whose selection already holds
four items, one further `selectItem` call (deselecting one of them) leaves
three selected items, so the bound `|selection| ≤ 2` does not hold for every
starting state. -/
theorem spec_c3_counterexample :
    ¬ ((runSeq1 [] [str "x"]
        ⟨[str "w", str "x", str "y", str "z"], []⟩).selectedItems.length ≤ 2) ∧
    ¬ ((runSeq2 [] [str "x"]
        ⟨[str "w", str "x", str "y", str "z"], []⟩).selectedItems.length ≤ 2) := by
  constructor <;> decide

/-- C3 amended: from every starting state whose selection has at most two
entries — in particular every state reachable from the empty selection — any
finite sequence of `selectItem` calls keeps the selection length at most 2
at every point (every intermediate state is the result of running a prefix,
which this statement covers by quantifying over all sequences), in both
variants. -/
theorem spec_c3_amended (t : Table) (s : AppState)
    (h : s.selectedItems.length ≤ 2) (items : List Str) :
    (runSeq1 t items s).selectedItems.length ≤ 2 ∧
    (runSeq2 t items s).selectedItems.length ≤ 2 :=
  ⟨runSeq1_length h items, runSeq2_length h items⟩

theorem spec_c3_witness :
    initialState.selectedItems.length ≤ 2 ∧
    ((runSeq1 T01 [str "AIOps", str "ServiceNow", str "AIOps"]
        initialState).selectedItems.length ≤ 2 ∧
      (runSeq2 T01 [str "AIOps", str "ServiceNow", str "AIOps"]
        initialState).selectedItems.length ≤ 2) :=
  ⟨by decide, spec_c3_amended T01 initialState (by decide)
    [str "AIOps", str "ServiceNow", str "AIOps"]⟩

/-- C4 counterexample: for the pair (a, b) with a = b = "x" — which has no
pairing-table entry, here in the empty table — the second call deselects the
first item, ending with selection = [] rather than ["x"]. -/
theorem spec_c4_counterexample :
    lookupTable ([] : Table) (sortKey (str "x") (str "x")) = none ∧
    (runSeq1 ([] : Table) [str "x", str "x"] initialState).selectedItems
      ≠ [str "x"] ∧
    (runSeq2 ([] : Table) [str "x", str "x"] initialState).selectedItems
      ≠ [str "x"] := by
  refine ⟨rfl, ?_, ?_⟩ <;> decide

/-- C4 amended: for every pair of two distinct items (a, b) with no
pairing-table entry, starting empty, selectItem(a) then selectItem(b) leaves
selection = [a] and summary = "" in both variants; the failed second call is
a silent no-op on the selection (both handlers are total functions — no
error is signalled). -/
theorem spec_c4_amended {t : Table} {a b : Str} (hwf : WellFormed t) (hab : a ≠ b)
    (hl : lookupTable t (sortKey a b) = none) :
    runSeq1 t [a, b] initialState = ⟨[a], []⟩ ∧
    runSeq2 t [a, b] initialState = ⟨[a], []⟩ := by
  constructor
  · rw [show (initialState : AppState) = ⟨[], []⟩ from rfl, runSeq1_cons, hns1_empty,
      runSeq1_cons, hns1_reject [] hwf.1 hl hab]
    rfl
  · rw [show (initialState : AppState) = ⟨[], []⟩ from rfl, runSeq2_cons, hns2_empty,
      runSeq2_cons, hns2_reject [] (by rw [hl]; rfl) hab]
    rfl

theorem spec_c4_witness :
    WellFormed ([] : Table) ∧ str "x" ≠ str "y" ∧
    lookupTable ([] : Table) (sortKey (str "x") (str "y")) = none ∧
    (runSeq1 ([] : Table) [str "x", str "y"] initialState = ⟨[str "x"], []⟩ ∧
      runSeq2 ([] : Table) [str "x", str "y"] initialState = ⟨[str "x"], []⟩) :=
  ⟨⟨by decide, by decide⟩, by decide, rfl,
    spec_c4_amended ⟨by decide, by decide⟩ (by decide) rfl⟩

/-- C5 counterexample: the claim's second cited implementation — the second
variant's category switcher (App.tsx lines 547-580) — renders
`mindmapData.children` unconditionally: with the two-entry selection
`[AIOps, ServiceNow]` it still shows every category instead of none, and
with the one-entry selection `[AIOps]` (table `T01`) it shows every
category, not just the ones containing a pairing-table partner of
`"AIOps"`. -/
theorem spec_c5_counterexample :
    renderedTabs2 [str "AIOps", str "ServiceNow"] ≠ [] ∧
    renderedTabs2 [str "AIOps"]
      ≠ mindmapData.children.filter
          (fun c => c.children.any (fun x => validPartner T01 (str "AIOps") x)) := by
  constructor <;> decide

/-- C5 amended: for a well-formed pairing table, the first variant's derived
view `availableTabs` (the spec's `eligibleCategories()`) returns all
categories when the selection is empty; for a one-item selection `[a]`,
exactly the categories containing at least one item that is a valid
pairing-table partner of `a`; and the empty list when the selection has two
entries.  The second variant's category switcher is not a view over this
derived set: it renders all of `mindmapData.children` unconditionally, for
every selection. -/
theorem spec_c5_amended {t : Table} (hwf : WellFormed t) :
    availableTabs t [] = mindmapData.children ∧
    (∀ a, availableTabs t [a] = mindmapData.children.filter
      (fun c => c.children.any (fun x => validPartner t a x))) ∧
    (∀ sel : List Str, sel.length = 2 → availableTabs t sel = []) ∧
    (∀ sel : List Str, renderedTabs2 sel = mindmapData.children) :=
  ⟨availableTabs_nil t, fun a => availableTabs_one hwf.1 a,
    fun sel h => availableTabs_two t sel h, fun _ => rfl⟩

theorem spec_c5_witness :
    WellFormed T01 ∧
    availableTabs T01 [str "AIOps"] = mindmapData.children.filter
      (fun c => c.children.any (fun x => validPartner T01 (str "AIOps") x)) ∧
    renderedTabs2 [str "AIOps"] = mindmapData.children :=
  ⟨⟨by decide, by decide⟩,
    (spec_c5_amended ⟨by decide, by decide⟩).2.1 (str "AIOps"),
    (spec_c5_amended (t := T01) ⟨by decide, by decide⟩).2.2.2 [str "AIOps"]⟩

/-- C6: the claim's first half holds — a click on a leaf circle invokes the
selection handler with the leaf's name — but its second half fails: the
click handler is attached to every rendered circle, the hub included, so a
hub click invokes the selection handler with the hub's (category) name and,
from the empty selection, changes the state to `[categoryName]` instead of
being a no-op.  This theorem evaluates the code at the failing input in both
variants. -/
theorem spec_c6_code_bug :
    (⟨technologies.name, some technologies.children⟩ : D3Node)
      ∈ graphNodes T01 technologies [] ∧
    (⟨str "AIOps", none⟩ : D3Node) ∈ graphNodes T01 technologies [] ∧
    circleClick1 T01 ⟨str "AIOps", none⟩ initialState
      = handleNodeSelect1 T01 (str "AIOps") initialState ∧
    circleClick2 T01 ⟨str "AIOps", none⟩ initialState
      = handleNodeSelect2 T01 (str "AIOps") initialState ∧
    circleClick1 T01 ⟨technologies.name, some technologies.children⟩ initialState
      = ⟨[str "Technologies"], []⟩ ∧
    circleClick2 T01 ⟨technologies.name, some technologies.children⟩ initialState
      = ⟨[str "Technologies"], []⟩ ∧
    (⟨[str "Technologies"], []⟩ : AppState) ≠ initialState := by
  refine ⟨?_, ?_, rfl, rfl, ?_, ?_, ?_⟩ <;> decide

/-- C7 counterexample: a pairing table whose single key satisfies the
claim's key condition (comma-joined, lexically sorted, two distinct names)
but whose summary text is the empty string: the membership-scan variant
accepts the pair while the canonical-lookup variant rejects it under the JS
truthiness test, so the two `handleNodeSelect` variants disagree. -/
theorem spec_c7_counterexample :
    (∀ p ∈ Tbad, entryWF p.1 = true) ∧
    handleNodeSelect1 Tbad (str "ServiceNow") ⟨[str "AIOps"], []⟩
      = ⟨[str "AIOps", str "ServiceNow"], []⟩ ∧
    handleNodeSelect2 Tbad (str "ServiceNow") ⟨[str "AIOps"], []⟩
      = ⟨[str "AIOps"], []⟩ ∧
    handleNodeSelect1 Tbad (str "ServiceNow") ⟨[str "AIOps"], []⟩
      ≠ handleNodeSelect2 Tbad (str "ServiceNow") ⟨[str "AIOps"], []⟩ := by
  refine ⟨?_, ?_, ?_, ?_⟩ <;> decide

/-- C7 amended: for a well-formed pairing table all of whose summary texts
are non-empty, the two partner-matching implementations accept exactly the
same pairs and return the same summary: the two `handleNodeSelect` variants
are equal as functions on states, and hence compute equal selection/summary
results for every input sequence. -/
theorem spec_c7_amended {t : Table} (hwf : WellFormed t)
    (hne : NonEmptySummaries t) :
    (∀ (i : Str) (s : AppState), handleNodeSelect1 t i s = handleNodeSelect2 t i s) ∧
    (∀ (items : List Str) (s : AppState), runSeq1 t items s = runSeq2 t items s) :=
  ⟨fun i s => hns_agree hwf.1 hne i s, fun items s => runSeq_agree hwf.1 hne items s⟩

theorem spec_c7_witness :
    WellFormed T01 ∧ NonEmptySummaries T01 ∧
    runSeq1 T01 [str "AIOps", str "ServiceNow", str "AIOps"] initialState
      = runSeq2 T01 [str "AIOps", str "ServiceNow", str "AIOps"] initialState :=
  ⟨⟨by decide, by decide⟩, by unfold NonEmptySummaries; decide,
    (spec_c7_amended ⟨by decide, by decide⟩ (by unfold NonEmptySummaries; decide)).2
      [str "AIOps", str "ServiceNow", str "AIOps"] initialState⟩

/-- C8 counterexample: with a well-formed-key table whose single entry has
an empty summary text, `"ServiceNow"` is a member of
`availableNodes` (the eligible set) for selection `["AIOps"]`, yet clicking
it through the canonical-lookup `handleNodeSelect` variant is rejected (the
JS truthiness test fails on the empty string), leaving the selection at
`["AIOps"]` instead of accepting it. -/
theorem spec_c8_counterexample :
    (∀ p ∈ Tbad, entryWF p.1 = true) ∧
    str "ServiceNow" ∈ availableNodes Tbad keyPlayers [str "AIOps"] ∧
    handleNodeSelect2 Tbad (str "ServiceNow") ⟨[str "AIOps"], []⟩
      = ⟨[str "AIOps"], []⟩ ∧
    (⟨[str "AIOps"], []⟩ : AppState).selectedItems
      ≠ [str "AIOps", str "ServiceNow"] := by
  refine ⟨?_, ?_, ?_, ?_⟩ <;> decide

/-- C8 amended: for a well-formed pairing table all of whose summary texts
are non-empty, every member `x` of `availableNodes` (the spec's
`eligibleItems(category)`) for a one-item selection `[a]` is a valid
pairing-table partner of `a` — the pair `{a, x}` has an entry — and clicking
`x` through the canonical-lookup `handleNodeSelect` variant is accepted,
yielding selection `[a, x]` with the found summary, never the silent
rejection branch. -/
theorem spec_c8_amended {t : Table} (hwf : WellFormed t)
    (hne : NonEmptySummaries t) :
    ∀ (cat : MindMapNode) (a x m : Str), x ∈ availableNodes t cat [a] →
      validPartner t a x = true ∧
      ∃ v, lookupTable t (sortKey a x) = some v ∧
        handleNodeSelect2 t x ⟨[a], m⟩ = ⟨[a, x], v⟩ := by
  intro cat a x m hx
  obtain ⟨hvp, hxa, _⟩ := availableNodes_mem hwf.1 hx
  obtain ⟨v, hv⟩ := Option.isSome_iff_exists.mp hvp
  have hvne : v ≠ [] := by
    obtain ⟨p, hp, hpk, hpv⟩ := lookup_eq_some_elim hv
    rw [← hpv]
    exact hne p hp
  exact ⟨hvp, v, hv, hns2_accept m hv hvne (Ne.symm hxa)⟩

theorem spec_c8_witness :
    WellFormed T01 ∧ NonEmptySummaries T01 ∧
    str "ServiceNow" ∈ availableNodes T01 keyPlayers [str "AIOps"] ∧
    (validPartner T01 (str "AIOps") (str "ServiceNow") = true ∧
      ∃ v, lookupTable T01 (sortKey (str "AIOps") (str "ServiceNow")) = some v ∧
        handleNodeSelect2 T01 (str "ServiceNow") ⟨[str "AIOps"], []⟩
          = ⟨[str "AIOps", str "ServiceNow"], v⟩) :=
  ⟨⟨by decide, by decide⟩, by unfold NonEmptySummaries; decide, by decide,
    spec_c8_amended ⟨by decide, by decide⟩ (by unfold NonEmptySummaries; decide) keyPlayers
      (str "AIOps") (str "ServiceNow") [] (by decide)⟩

/-- C9: for every pairing table and every item `a`, starting from the empty
selection, selectItem(a) then selectItem(a) again returns to selection = []
and summary = "" in both variants: the first click selects, the second hits
the deselect branch. -/
theorem spec_c9 (t : Table) (a : Str) :
    runSeq1 t [a, a] initialState = initialState ∧
    runSeq2 t [a, a] initialState = initialState := by
  constructor
  · rw [show (initialState : AppState) = ⟨[], []⟩ from rfl, runSeq1_cons, hns1_empty,
      runSeq1_cons, hns1_deselect_single]
    rfl
  · rw [show (initialState : AppState) = ⟨[], []⟩ from rfl, runSeq2_cons, hns2_empty,
      runSeq2_cons, hns2_deselect_single]
    rfl

/-- C10: for a well-formed pairing table, in every state reachable from the
initial state by `selectItem` (either variant) and `reset` calls, a
non-empty summary implies the selection has exactly two entries and the
summary equals the pairing-table entry stored under the canonical key of the
selected pair. -/
theorem spec_c10 {t : Table} {s : AppState} (hwf : WellFormed t)
    (hr : Reachable t s) (hs : s.summary ≠ []) :
    s.selectedItems.length = 2 ∧
    ∃ a b, s.selectedItems = [a, b] ∧
      lookupTable t (sortKey a b) = some s.summary :=
  (inv_reachable hwf.1 hr).2 hs

theorem spec_c10_witness :
    WellFormed T01 ∧
    (handleNodeSelect1 T01 (str "ServiceNow")
        (handleNodeSelect1 T01 (str "AIOps") initialState)).summary ≠ [] ∧
    ((handleNodeSelect1 T01 (str "ServiceNow")
        (handleNodeSelect1 T01 (str "AIOps") initialState)).selectedItems.length = 2 ∧
      ∃ a b, (handleNodeSelect1 T01 (str "ServiceNow")
          (handleNodeSelect1 T01 (str "AIOps") initialState)).selectedItems = [a, b] ∧
        lookupTable T01 (sortKey a b) = some (handleNodeSelect1 T01 (str "ServiceNow")
          (handleNodeSelect1 T01 (str "AIOps") initialState)).summary) :=
  ⟨⟨by decide, by decide⟩, by decide,
    spec_c10 ⟨by decide, by decide⟩
      (Reachable.select1 _ _ (Reachable.select1 _ _ Reachable.init)) (by decide)⟩

end Itom
